/-
  Verification of the fdtdump flattened-device-tree decoder (src/fdtdump.c).

  The blob is modelled as a total byte function `Nat → Nat` (byte at absolute
  offset from blob start; reads are masked to one byte).  The decoder's output
  is modelled as a trace of structured events, one per printf/fprintf call in
  the source, carrying exactly the arguments the source passes to the format
  string.  Loops that the C source runs without a termination guarantee
  (the structure walk, the reservation scan, strlen) take an explicit fuel
  parameter.
-/
import Mathlib

namespace Fdtdump

/-- byte fetched from the blob at offset `i` (masked to 8 bits). -/
def byteAt (b : Nat → Nat) (i : Nat) : Nat := b i % 256

/-- big-endian 32-bit load, models `fdt32_to_cpu` applied to the cell at `off`
(`GET_CELL` in the source reads four bytes in network order). -/
def fdt32At (b : Nat → Nat) (off : Nat) : Nat :=
  byteAt b off * 16777216 + byteAt b (off + 1) * 65536 +
    byteAt b (off + 2) * 256 + byteAt b (off + 3)

/-- big-endian 64-bit load, models `fdt64_to_cpu` of the 8 bytes at `off`. -/
def fdt64At (b : Nat → Nat) (off : Nat) : Nat :=
  fdt32At b off * 4294967296 + fdt32At b (off + 4)

/-- the `ALIGN(x, a)` macro of fdtdump.c: round `x` up to a multiple of `a`
(the source uses a bit mask, equivalent for the powers of two it is used with). -/
def ALIGN (x a : Nat) : Nat := (x + (a - 1)) / a * a

/-- the same macro on a signed cursor offset: the bit mask on the
two's-complement representation floors `x + (a - 1)` to a multiple of `a`,
also for negative `x` (floor division). -/
def ALIGNI (x a : Int) : Int := (x + (a - 1)).fdiv a * a

/-- conversion of an unsigned 32-bit cell value to a C `int`, as in
`int sz; sz = fdt32_to_cpu(GET_CELL(p));` (src line 138): values of
2^31 and above wrap to negative two's-complement values. -/
def toInt32 (v : Nat) : Int :=
  if v < 2147483648 then (v : Int) else (v : Int) - 4294967296

/-- structure-block tag constants from `fdt.h`. -/
def FDT_BEGIN_NODE : Nat := 1
def FDT_END_NODE : Nat := 2
def FDT_PROP : Nat := 3
def FDT_NOP : Nat := 4
def FDT_END : Nat := 9
def FDT_MAGIC : Nat := 0xd00dfeed

/-- the fixed `struct fdt_header` fields, each a 32-bit big-endian cell at a
fixed offset from blob start. -/
structure FdtHeader where
  magic : Nat
  totalsize : Nat
  off_dt_struct : Nat
  off_dt_strings : Nat
  off_mem_rsvmap : Nat
  version : Nat
  last_comp_version : Nat
  boot_cpuid_phys : Nat
  size_dt_strings : Nat
  size_dt_struct : Nat
deriving DecidableEq

/-- header parsing: `fdt32_to_cpu` of each field of `struct fdt_header`
at its layout offset. -/
def parseHeader (b : Nat → Nat) : FdtHeader :=
  { magic := fdt32At b 0
    totalsize := fdt32At b 4
    off_dt_struct := fdt32At b 8
    off_dt_strings := fdt32At b 12
    off_mem_rsvmap := fdt32At b 16
    version := fdt32At b 20
    last_comp_version := fdt32At b 24
    boot_cpuid_phys := fdt32At b 28
    size_dt_strings := fdt32At b 32
    size_dt_struct := fdt32At b 36 }

/-- one output event per printf/fprintf of the decoder, carrying the
arguments the source passes.  `unknownTag` is the single stderr event
(`fprintf(stderr, "%*s ** Unknown tag 0x%08x\n", depth*shift, "", tag)`);
all other events go to stdout.  The `dbg…` events model the `dumpf` lines
that are emitted only when the debug flag is set. -/
inductive Event where
  | dtsV1
  | hMagic (v : Nat)
  | hTotalsize (v : Nat)
  | hOffDtStruct (v : Nat)
  | hOffDtStrings (v : Nat)
  | hOffMemRsvmap (v : Nat)
  | hVersion (v : Nat)
  | hLastCompVersion (v : Nat)
  | hBootCpuidPhys (v : Nat)
  | hSizeDtStrings (v : Nat)
  | hSizeDtStruct (v : Nat)
  | blankLine
  | memreserve (addr size : Nat)
  | beginNode (indent : Int) (name : List Nat)
  | endNode (indent : Int)
  | nop (indent : Int)
  | property (indent : Int) (name : List Nat) (valueOff : Nat) (len : Int)
  | unknownTag (indent : Int) (tag : Nat)
  | dbgTagAt (off tag : Nat)
  | dbgString (off : Nat) (name : List Nat)
  | dbgValue (off : Nat)
  | liveComment (path : List Char)
  | liveRootOpen
  | liveRootClose
  | liveProp (indent : Int) (name : String) (trunc : Bool) (bytes : List Nat)
  | liveNodeOpen (indent : Int) (name : String)
  | liveNodeClose (indent : Int)
deriving DecidableEq

/-- how the structure walk of `dump_blob` ended: `ended` is the normal exit of
the while loop on `FDT_END`, `unknownTag` is the `break` on an unrecognized
tag, `fuelOut` means the model's fuel ran out before the C loop would stop,
and `cursorUnderflow` marks the point where a property length that wrapped
negative in the C `int` moved the cursor before the blob start (the C then
reads memory before the blob, which the blob model does not cover). -/
inductive WalkExit where
  | ended
  | unknownTag (tag : Nat)
  | fuelOut
  | cursorUnderflow
deriving DecidableEq

/-- bytes of the null-terminated string at `off` (models `strlen`/`%s` use of
a `const char *` into the blob); `none` when no terminator is found within
`fuel` bytes. -/
def cstr (b : Nat → Nat) (off : Nat) : Nat → Option (List Nat)
  | 0 => none
  | fuel + 1 =>
    if byteAt b off = 0 then some []
    else (cstr b (off + 1) fuel).map (fun l => byteAt b off :: l)

/-- the structure-block while loop of `dump_blob` (src lines 104-151).
`p` is the cursor offset from blob start, `depth` the signed depth counter,
`ver` the header version, `offStr` the strings-block offset.  Each iteration
reads the 4-byte tag cell at `p` and dispatches exactly as the source does. -/
def walkAux (b : Nat → Nat) (dbg : Bool) (ver offStr : Nat) :
    Nat → Nat → Int → List Event × WalkExit
  | 0, _, _ => ([], .fuelOut)
  | fuel + 1, p, depth =>
    let tag := fdt32At b p
    if tag = FDT_END then ([], .ended)
    else
      let dbgE : List Event := if dbg then [.dbgTagAt p tag] else []
      if tag = FDT_BEGIN_NODE then
        match cstr b (p + 4) fuel with
        | none => (dbgE, .fuelOut)
        | some nm =>
          let r := walkAux b dbg ver offStr fuel (ALIGN (p + 4 + nm.length + 1) 4) (depth + 1)
          (dbgE ++ Event.beginNode (4 * depth) (if nm = [] then [47] else nm) :: r.1, r.2)
      else if tag = FDT_END_NODE then
        let r := walkAux b dbg ver offStr fuel (p + 4) (depth - 1)
        (dbgE ++ Event.endNode (4 * (depth - 1)) :: r.1, r.2)
      else if tag = FDT_NOP then
        let r := walkAux b dbg ver offStr fuel (p + 4) depth
        (dbgE ++ Event.nop (4 * depth) :: r.1, r.2)
      else if tag ≠ FDT_PROP then
        (dbgE ++ [Event.unknownTag (4 * depth) tag], .unknownTag tag)
      else
        let szI := toInt32 (fdt32At b (p + 4))
        let nameoff := fdt32At b (p + 8)
        let voff := if ver < 16 ∧ 8 ≤ szI then ALIGN (p + 12) 8 else p + 12
        match cstr b (offStr + nameoff) fuel with
        | none => (dbgE, .fuelOut)
        | some nm =>
          let dbgP : List Event :=
            if dbg then [Event.dbgString (offStr + nameoff) nm, Event.dbgValue voff] else []
          let nextI := ALIGNI ((voff : Int) + szI) 4
          if nextI < 0 then
            (dbgE ++ dbgP ++ [Event.property (4 * depth) nm voff szI], .cursorUnderflow)
          else
            let r := walkAux b dbg ver offStr fuel nextI.toNat depth
            (dbgE ++ dbgP ++ Event.property (4 * depth) nm voff szI :: r.1, r.2)

/-- the reservation-map loop of `dump_blob` (src lines 93-101): read the
(address, size) 64-bit big-endian pair at `off`, stop silently when both are
zero, otherwise emit a `/memreserve/` directive and move to the next 16-byte
entry.  The boolean records whether the sentinel was reached within fuel. -/
def readRsvMap (b : Nat → Nat) (off : Nat) : Nat → List Event × Bool
  | 0 => ([], false)
  | fuel + 1 =>
    let addr := fdt64At b off
    let size := fdt64At b (off + 8)
    if addr = 0 ∧ size = 0 then ([], true)
    else
      let r := readRsvMap b (off + 16) fuel
      (Event.memreserve addr size :: r.1, r.2)

/-- the unconditional printf block at the top of `dump_blob` (src lines
72-91): the `/dts-v1/;` marker, one commented line per header field (with the
version-gated trailer fields), then a blank line.  None of these printf calls
is guarded by the debug flag in the source. -/
def headerEvents (b : Nat → Nat) : List Event :=
  let h := parseHeader b
  [Event.dtsV1, Event.hMagic h.magic, Event.hTotalsize h.totalsize,
   Event.hOffDtStruct h.off_dt_struct, Event.hOffDtStrings h.off_dt_strings,
   Event.hOffMemRsvmap h.off_mem_rsvmap, Event.hVersion h.version,
   Event.hLastCompVersion h.last_comp_version]
  ++ (if 2 ≤ h.version then [Event.hBootCpuidPhys h.boot_cpuid_phys] else [])
  ++ (if 3 ≤ h.version then [Event.hSizeDtStrings h.size_dt_strings] else [])
  ++ (if 17 ≤ h.version then [Event.hSizeDtStruct h.size_dt_struct] else [])
  ++ [Event.blankLine]

/-- `dump_blob`: header block, reservation map, then the structure walk
starting at `off_dt_struct` with depth 0.  If the reservation loop never hits
its sentinel within fuel the walk is never reached (the C loop would spin). -/
def dump_blob (b : Nat → Nat) (dbg : Bool) (fuel : Nat) : List Event × WalkExit :=
  let h := parseHeader b
  let rsv := readRsvMap b h.off_mem_rsvmap fuel
  if rsv.2 then
    let w := walkAux b dbg h.version h.off_dt_strings fuel h.off_dt_struct 0
    (headerEvents b ++ rsv.1 ++ w.1, w.2)
  else (headerEvents b ++ rsv.1, .fuelOut)

/-- the tail of `main` on the plain blob path (src lines 331-333): `dump_blob`
is called and then `main` returns 0.  `dump_blob` contains no exit call, so
the process exit status is 0 whatever the walk's outcome was. -/
def blobMain (b : Nat → Nat) (dbg : Bool) (fuel : Nat) : List Event × Nat :=
  ((dump_blob b dbg fuel).1, 0)

/-! Live-tree walker (`dump_live` / `dump_live_internal`).  A directory is a
node whose regular-file children are properties and whose subdirectory
children are child nodes; the filesystem is modelled as the tree that the
`readdir` enumeration yields, in enumeration order. -/

/-- a regular file seen by `dump_live_internal`: directory-entry name,
`st_size` from `stat`, and the file's byte content. -/
structure LiveFile where
  name : String
  size : Nat
  content : List Nat
deriving DecidableEq

/-- a directory: regular-file children (in `readdir` order), then
subdirectory children (name, subtree), `.` and `..` already excluded. -/
inductive LiveNode where
  | mk : List LiveFile → List (String × LiveNode) → LiveNode

/-- events emitted by the live-tree walker, one per printf group. -/
inductive LiveEv where
  | prop (indent : Int) (name : String) (trunc : Bool) (bytes : List Nat)
  | nodeOpen (indent : Int) (name : String)
  | nodeClose (indent : Int)
deriving DecidableEq

/-- `chunk = sb.st_size > buf_alloc ? buf_alloc : sb.st_size` with
`buf_alloc = 4 * 1024` (src line 189): number of bytes read from the file. -/
def liveChunk (sz : Nat) : Nat := if 4096 < sz then 4096 else sz

/-- the property line for one regular file (src lines 180-206): the entry
name, a truncation marker exactly when `chunk < st_size`, and the first
`chunk` bytes of the content handed to `utilfdt_print_data`. -/
def liveFileEv (depth : Int) (f : LiveFile) : LiveEv :=
  .prop (4 * depth) f.name (decide (liveChunk f.size < f.size))
    (f.content.take (liveChunk f.size))

mutual
/-- `dump_live_internal`: first all regular files as properties, then each
subdirectory as an opening brace, recursion at depth + 1, closing brace. -/
def dumpLiveNode : LiveNode → Int → List LiveEv
  | .mk files subs, depth =>
      files.map (liveFileEv depth) ++ dumpLiveSubs subs depth

/-- the subdirectory loop of `dump_live_internal` (src lines 211-224). -/
def dumpLiveSubs : List (String × LiveNode) → Int → List LiveEv
  | [], _ => []
  | (nm, child) :: rest, depth =>
      LiveEv.nodeOpen (4 * depth) nm ::
        (dumpLiveNode child (depth + 1) ++
          (LiveEv.nodeClose (4 * depth) :: dumpLiveSubs rest depth))
end

/-- injection of live-walker events into the common event trace. -/
def liveToEvent : LiveEv → Event
  | .prop i n t b => .liveProp i n t b
  | .nodeOpen i n => .liveNodeOpen i n
  | .nodeClose i => .liveNodeClose i

/-- the trailing-slash stripping of `dump_live` (src lines 233-236): every
trailing `/` after the first character is removed; the first character is
kept even when it is `/`. -/
def fixTrailing : List Char → List Char
  | [] => []
  | c :: cs => c :: (cs.reverse.dropWhile (fun x => x = '/')).reverse

/-- `dump_live` (src lines 227-241): a comment line naming the fixed path,
the root opening line `/ {`, the recursive walk at depth 1, and the closing
brace.  No `/dts-v1/;` marker is printed on this path. -/
def dump_live (path : List Char) (t : LiveNode) : List Event :=
  Event.liveComment (fixTrailing path) :: Event.liveRootOpen ::
    ((dumpLiveNode t 1).map liveToEvent ++ [Event.liveRootClose])

/-! Embedded-blob locator (`main`, scan branch, src lines 297-328).  The
input buffer is a concrete byte list; reads past its end yield 0. -/

/-- `memchr(p, c, n)` over the buffer: index of the first byte equal to `c`
among positions `p, p+1, …, p+n-1`. -/
def memchrIdx (buf : List Nat) (c : Nat) : Nat → Nat → Option Nat
  | _, 0 => none
  | p, n + 1 =>
    if buf.getD p 0 % 256 = c then some p else memchrIdx buf c (p + 1) n

/-- byte function view of a buffer (reads past the end give 0). -/
def bufFn (buf : List Nat) : Nat → Nat := fun i => buf.getD i 0

/-- `fdt_magic(p) == FDT_MAGIC`: the four bytes at `p` equal the magic. -/
def fdtMagicAt (buf : List Nat) (p : Nat) : Bool :=
  decide (fdt32At (bufFn buf) p = FDT_MAGIC)

/-- the plausibility filter of the scan loop (src lines 311-317):
version ≤ 17, last-compatible version < 17, and totalsize, structure offset
and strings offset each smaller than `this_len = endp - p`, the bytes
remaining from the candidate to the end of the buffer. -/
def headerPlausible (buf : List Nat) (p : Nat) : Bool :=
  let h := parseHeader (fun i => buf.getD (p + i) 0)
  decide (h.version ≤ 17) && decide (h.last_comp_version < 17) &&
  decide (h.totalsize < buf.length - p) &&
  decide (h.off_dt_struct < buf.length - p) &&
  decide (h.off_dt_strings < buf.length - p)

/-- outcome of the scan loop: `found p` is the `break` that accepts the
candidate at offset `p`; `notFound` is `p == NULL`, on which `main` calls
`die` and the process exits with a non-zero status. -/
inductive ScanRes where
  | found (p : Nat)
  | notFound
  | fuelOut
deriving DecidableEq

/-- the poor-man's-memmem loop of `main` (src lines 305-324): probe with
`memchr` for the first magic byte over `endp - p - 4` bytes; on a hit check
the full 4-byte magic and the plausibility filter; accept on success,
otherwise resume one byte forward.  Also returns the list of probe hits
(positions where the 4-byte magic comparison was evaluated). -/
def scanLoop (buf : List Nat) : Nat → Nat → List Nat × ScanRes
  | 0, _ => ([], .fuelOut)
  | fuel + 1, p =>
    match memchrIdx buf 208 p (buf.length - p - 4) with
    | none => ([], .notFound)
    | some i =>
      if fdtMagicAt buf i && headerPlausible buf i then ([i], .found i)
      else
        let r := scanLoop buf fuel (i + 1)
        (i :: r.1, r.2)

/-- the scan entry point: loop from offset 0 with enough fuel for the whole
buffer. -/
def scanMain (buf : List Nat) : ScanRes := (scanLoop buf (buf.length + 1) 0).2

/-- acceptance condition for a candidate offset: it lies in the region the
probe covers (at least 5 bytes before the end), its four bytes equal the
magic, and the plausibility filter passes. -/
def acceptAt (buf : List Nat) (p : Nat) : Prop :=
  p + 5 ≤ buf.length ∧ fdtMagicAt buf p = true ∧ headerPlausible buf p = true

instance (buf : List Nat) (p : Nat) : Decidable (acceptAt buf p) := by
  unfold acceptAt; infer_instance

/-! Concrete test blobs used by counterexamples and witnesses. -/

/-- a minimal well-formed version-17 blob: 40-byte header, empty reservation
map (sentinel only) at offset 40, structure block at 56 holding a single
`FDT_END` tag, strings block at 60, total size 60. -/
def cb1 : List Nat :=
  [0xd0, 0x0d, 0xfe, 0xed, 0, 0, 0, 60, 0, 0, 0, 56, 0, 0, 0, 60,
   0, 0, 0, 40, 0, 0, 0, 17, 0, 0, 0, 16, 0, 0, 0, 0,
   0, 0, 0, 0, 0, 0, 0, 4,
   0, 0, 0, 0, 0, 0, 0, 0, 0, 0, 0, 0, 0, 0, 0, 0,
   0, 0, 0, 9]

/-- like `cb1` but the structure block holds the single unknown tag 5. -/
def cb2 : List Nat :=
  [0xd0, 0x0d, 0xfe, 0xed, 0, 0, 0, 60, 0, 0, 0, 56, 0, 0, 0, 60,
   0, 0, 0, 40, 0, 0, 0, 17, 0, 0, 0, 16, 0, 0, 0, 0,
   0, 0, 0, 0, 0, 0, 0, 4,
   0, 0, 0, 0, 0, 0, 0, 0, 0, 0, 0, 0, 0, 0, 0, 0,
   0, 0, 0, 5]

/-- like `cb1` but the structure block is `FDT_END_NODE` followed by
`FDT_END`: an EndNode with no matching BeginNode, and End at depth -1. -/
def cb3 : List Nat :=
  [0xd0, 0x0d, 0xfe, 0xed, 0, 0, 0, 64, 0, 0, 0, 56, 0, 0, 0, 64,
   0, 0, 0, 40, 0, 0, 0, 17, 0, 0, 0, 16, 0, 0, 0, 0,
   0, 0, 0, 0, 0, 0, 0, 8,
   0, 0, 0, 0, 0, 0, 0, 0, 0, 0, 0, 0, 0, 0, 0, 0,
   0, 0, 0, 2, 0, 0, 0, 9]

/-- a version-1 blob: root BeginNode with empty name at 56, a property of
length 8 at 64 (whose value is pushed from offset 76 to 80 by the legacy
8-byte alignment rule), EndNode, End; strings block at 96 holds the single
name "x". -/
def cb4 : List Nat :=
  [0xd0, 0x0d, 0xfe, 0xed, 0, 0, 0, 98, 0, 0, 0, 56, 0, 0, 0, 96,
   0, 0, 0, 40, 0, 0, 0, 1, 0, 0, 0, 1, 0, 0, 0, 0,
   0, 0, 0, 0, 0, 0, 0, 0,
   0, 0, 0, 0, 0, 0, 0, 0, 0, 0, 0, 0, 0, 0, 0, 0,
   0, 0, 0, 1, 0, 0, 0, 0,
   0, 0, 0, 3, 0, 0, 0, 8, 0, 0, 0, 0, 0, 0, 0, 0,
   1, 2, 3, 4, 5, 6, 7, 8,
   0, 0, 0, 2, 0, 0, 0, 9,
   120, 0]

/-- `cb4` with the property's declared length cell changed to 0x80000000:
an unsigned length of at least 8 that wraps negative in the C `int`, so the
legacy alignment rule is not applied despite version 1 < 16. -/
def cb6 : List Nat :=
  [0xd0, 0x0d, 0xfe, 0xed, 0, 0, 0, 98, 0, 0, 0, 56, 0, 0, 0, 96,
   0, 0, 0, 40, 0, 0, 0, 1, 0, 0, 0, 1, 0, 0, 0, 0,
   0, 0, 0, 0, 0, 0, 0, 0,
   0, 0, 0, 0, 0, 0, 0, 0, 0, 0, 0, 0, 0, 0, 0, 0,
   0, 0, 0, 1, 0, 0, 0, 0,
   0, 0, 0, 3, 0x80, 0, 0, 0, 0, 0, 0, 0,
   1, 2, 3, 4, 5, 6, 7, 8,
   0, 0, 0, 2, 0, 0, 0, 9,
   0, 0, 0, 0,
   120, 0]

/-- a reservation map alone: one entry (0x1000, 0x200) then the zero/zero
sentinel. -/
def cbRsv : List Nat :=
  [0, 0, 0, 0, 0, 0, 0x10, 0, 0, 0, 0, 0, 0, 0, 2, 0,
   0, 0, 0, 0, 0, 0, 0, 0, 0, 0, 0, 0, 0, 0, 0, 0]

/-- `cb1` with one trailing byte, so that its header passes the strict
`totalsize < this_len` plausibility comparison at offset 0. -/
def cb5 : List Nat := cb1 ++ [0]

/-- a 5-byte buffer whose magic first byte 0xd0 occurs only inside the
final 4 bytes. -/
def cb10 : List Nat := [1, 2, 3, 0xd0, 0xd0]

/-! Theorems. -/

/-- rounding up to a multiple of 8 yields a multiple of 8. -/
theorem ALIGN_mod_eight (x : Nat) : ALIGN x 8 % 8 = 0 := by
  simp [ALIGN, Nat.mul_mod_left]

/-- C7: on a `FDT_BEGIN_NODE` tag at cursor `p` the walker reads the
null-terminated name starting immediately after the tag cell (offset
`p + 4`), emits the opening-brace line at the current depth's indentation
with the empty name replaced by the root name "/" (byte 47), and continues
at the cursor rounded up to the next 4-byte boundary past the name and its
terminator, with the depth counter incremented by one. -/
theorem beginNode_reads_name_aligns_and_descends
    (b : Nat → Nat) (dbg : Bool) (ver offStr fuel p : Nat) (depth : Int) (nm : List Nat)
    (htag : fdt32At b p = FDT_BEGIN_NODE)
    (hnm : cstr b (p + 4) fuel = some nm) :
    walkAux b dbg ver offStr (fuel + 1) p depth =
      ((if dbg then [Event.dbgTagAt p FDT_BEGIN_NODE] else []) ++
        Event.beginNode (4 * depth) (if nm = [] then [47] else nm) ::
          (walkAux b dbg ver offStr fuel (ALIGN (p + 4 + nm.length + 1) 4) (depth + 1)).1,
       (walkAux b dbg ver offStr fuel (ALIGN (p + 4 + nm.length + 1) 4) (depth + 1)).2) := by
  simp [walkAux, htag, hnm, FDT_BEGIN_NODE, FDT_END]

/-- C7 witness: the BeginNode record at offset 56 of `cb4` has the empty
name, rendered as "/" (byte 47); the walk continues at offset 64 and
depth 1. -/
theorem beginNode_witness :
    cstr (bufFn cb4) (56 + 4) 20 = some [] ∧
    walkAux (bufFn cb4) false 1 96 (20 + 1) 56 0 =
      ([] ++ Event.beginNode 0 [47] ::
          (walkAux (bufFn cb4) false 1 96 20 (ALIGN (56 + 4 + 0 + 1) 4) 1).1,
       (walkAux (bufFn cb4) false 1 96 20 (ALIGN (56 + 4 + 0 + 1) 4) 1).2) := by
  refine ⟨by decide, ?_⟩
  have h := beginNode_reads_name_aligns_and_descends (bufFn cb4) false 1 96 20 56 0 []
      (by decide) (by decide)
  simpa using h

/-- the four bytes of a big-endian 32-bit load bound it below 2^32. -/
theorem fdt32At_lt (b : Nat → Nat) (off : Nat) : fdt32At b off < 4294967296 := by
  unfold fdt32At byteAt
  have h0 : b off % 256 < 256 := Nat.mod_lt _ (by omega)
  have h1 : b (off + 1) % 256 < 256 := Nat.mod_lt _ (by omega)
  have h2 : b (off + 2) % 256 < 256 := Nat.mod_lt _ (by omega)
  have h3 : b (off + 3) % 256 < 256 := Nat.mod_lt _ (by omega)
  omega

/-- C1 (amended): on a `FDT_PROP` tag at cursor `p` the walker reads the
length cell at `p + 4` into a C `int` (`szI`, two's-complement) and the
name-offset cell at `p + 8`.  The legacy 8-byte alignment is applied exactly
when the version is below 16 and the length read as an `int` is at least 8 —
equivalently, when the unsigned declared length lies in [8, 2^31); the value
offset is then a multiple of 8 relative to blob start.  When the version is
16 or more, and likewise when the declared length is 2^31 or more (wrapping
negative, so the source's `sz >= 8` test fails), the value starts at
`p + 12`, immediately after the name-offset cell.  The walk continues past
the value at the next 4-byte boundary of the signed cursor advance, leaving
the modelled region when that cursor retreats before the blob start. -/
theorem prop_value_alignment_quirk
    (b : Nat → Nat) (dbg : Bool) (ver offStr fuel p : Nat) (depth : Int)
    (nm : List Nat) (sz : Nat) (szI : Int) (voff : Nat)
    (htag : fdt32At b p = FDT_PROP)
    (hsz : fdt32At b (p + 4) = sz)
    (hszI : szI = toInt32 sz)
    (hvoff : voff = if ver < 16 ∧ 8 ≤ szI then ALIGN (p + 12) 8 else p + 12)
    (hnm : cstr b (offStr + fdt32At b (p + 8)) fuel = some nm) :
    (0 ≤ ALIGNI ((voff : Int) + szI) 4 →
      walkAux b dbg ver offStr (fuel + 1) p depth =
        ((if dbg then [Event.dbgTagAt p FDT_PROP] else []) ++
          (if dbg then [Event.dbgString (offStr + fdt32At b (p + 8)) nm, Event.dbgValue voff]
           else []) ++
          Event.property (4 * depth) nm voff szI ::
            (walkAux b dbg ver offStr fuel (ALIGNI ((voff : Int) + szI) 4).toNat depth).1,
         (walkAux b dbg ver offStr fuel (ALIGNI ((voff : Int) + szI) 4).toNat depth).2)) ∧
    (ALIGNI ((voff : Int) + szI) 4 < 0 →
      walkAux b dbg ver offStr (fuel + 1) p depth =
        ((if dbg then [Event.dbgTagAt p FDT_PROP] else []) ++
          (if dbg then [Event.dbgString (offStr + fdt32At b (p + 8)) nm, Event.dbgValue voff]
           else []) ++
          [Event.property (4 * depth) nm voff szI], .cursorUnderflow)) ∧
    (8 ≤ szI ↔ 8 ≤ sz ∧ sz < 2147483648) ∧
    (ver < 16 → 8 ≤ szI → voff % 8 = 0 ∧ voff = ALIGN (p + 12) 8) ∧
    (16 ≤ ver → voff = p + 12) ∧
    (2147483648 ≤ sz → voff = p + 12) := by
  have hlt : sz < 4294967296 := hsz ▸ fdt32At_lt b (p + 4)
  refine ⟨?_, ?_, ?_, ?_, ?_, ?_⟩
  · intro h
    subst hsz hszI hvoff
    simp [walkAux, htag, hnm, FDT_PROP, FDT_END, FDT_BEGIN_NODE, FDT_END_NODE, FDT_NOP,
      Int.not_lt.mpr h, -Nat.cast_ite]
  · intro h
    subst hsz hszI hvoff
    simp [walkAux, htag, hnm, FDT_PROP, FDT_END, FDT_BEGIN_NODE, FDT_END_NODE, FDT_NOP, h,
      -Nat.cast_ite]
  · subst hszI
    unfold toInt32
    split <;> constructor <;> intro hh <;> omega
  · intro h1 h2
    rw [hvoff, if_pos ⟨h1, h2⟩]
    exact ⟨ALIGN_mod_eight (p + 12), rfl⟩
  · intro h
    rw [hvoff, if_neg (by omega)]
  · intro h
    have hneg : szI < 8 := by
      subst hszI
      unfold toInt32
      rw [if_neg (by omega)]
      omega
    rw [hvoff, if_neg (by intro hc; omega)]

/-- C1 witness: the property record at offset 64 of the version-1 blob `cb4`
has declared length 8 (which reads as 8 in the C `int`), so its value is
pushed from offset 76 to the 8-byte-aligned offset 80 and the walk continues
at offset 88. -/
theorem prop_value_alignment_witness :
    fdt32At (bufFn cb4) 64 = FDT_PROP ∧
    (8 : Int) ≤ toInt32 8 ∧
    (walkAux (bufFn cb4) false 1 96 (20 + 1) 64 1).1.take 1 =
      [Event.property 4 [120] 80 8] ∧
    80 % 8 = 0 := by
  have h := prop_value_alignment_quirk (bufFn cb4) false 1 96 20 64 1 [120] 8 8
      (ALIGN (64 + 12) 8) (by decide) (by decide) (by decide) (by decide) (by decide)
  refine ⟨by decide, by decide, ?_, by decide⟩
  rw [h.1 (by decide)]
  decide

/-- C1 counterexample: in the version-1 blob `cb6` the property at offset 64
declares the unsigned length 0x80000000, which is at least 8, yet the value
offset in the emitted property event is 76 — not a multiple of 8 — because
the length wraps to -2^31 in the C `int` and the `sz >= 8` test of the
legacy alignment rule fails. -/
theorem prop_huge_length_counterexample :
    (parseHeader (bufFn cb6)).version = 1 ∧
    fdt32At (bufFn cb6) (64 + 4) = 2147483648 ∧
    8 ≤ 2147483648 ∧
    Event.property 4 [120] 76 (-2147483648) ∈ (dump_blob (bufFn cb6) false 20).1 ∧
    76 % 8 ≠ 0 := by
  exact ⟨by decide, by decide, by decide, by decide, by decide⟩

/-- C2 (amended): on a tag outside the known set the walker emits, after the
diagnostic-mode tag line, a single stderr line carrying the indentation and
the invalid tag value (and no byte offset), breaks out of the loop with
nothing further emitted, and the process still exits with status 0, because
`dump_blob` returns normally and `main` returns 0. -/
theorem unknown_tag_stops_with_status_zero
    (b : Nat → Nat) (dbg : Bool) (ver offStr fuel p : Nat) (depth : Int) (t : Nat)
    (htag : fdt32At b p = t)
    (h1 : t ≠ FDT_BEGIN_NODE) (h2 : t ≠ FDT_END_NODE) (h3 : t ≠ FDT_PROP)
    (h4 : t ≠ FDT_NOP) (h9 : t ≠ FDT_END) :
    walkAux b dbg ver offStr (fuel + 1) p depth =
      ((if dbg then [Event.dbgTagAt p t] else []) ++ [Event.unknownTag (4 * depth) t],
       .unknownTag t) ∧
    (blobMain b dbg (fuel + 1)).2 = 0 := by
  constructor
  · simp [walkAux, htag, h1, h2, h3, h4, h9]
  · rfl

/-- C2 counterexample: decoding `cb2` (structure block = the single unknown
tag 5, debug off) stops on the unknown tag, the only stderr line carries the
indentation 0 and the tag value 5 but no offset, and the process exit status
is 0 — not the non-zero status the claim requires. -/
theorem unknown_tag_exit_status_counterexample :
    (dump_blob (bufFn cb2) false 10).2 = WalkExit.unknownTag 5 ∧
    (dump_blob (bufFn cb2) false 10).1.drop 12 = [Event.unknownTag 0 5] ∧
    (blobMain (bufFn cb2) false 10).2 = 0 := by
  exact ⟨by decide, by decide, by decide⟩

/-- C2 witness: the amended step theorem applied to `cb2` at offset 56,
tag 5, depth 0. -/
theorem unknown_tag_stops_witness :
    fdt32At (bufFn cb2) 56 = 5 ∧
    walkAux (bufFn cb2) false 17 60 (9 + 1) 56 0 =
      ([] ++ [Event.unknownTag 0 5], .unknownTag 5) ∧
    (blobMain (bufFn cb2) false (9 + 1)).2 = 0 := by
  have h := unknown_tag_stops_with_status_zero (bufFn cb2) false 17 60 9 56 0 5
      (by decide) (by decide) (by decide) (by decide) (by decide) (by decide)
  exact ⟨by decide, by simpa using h.1, h.2⟩

/-- C3 (amended): the walker performs no balance checking: an `FDT_END_NODE`
tag simply decrements the depth counter (even below zero) and emits its
closing brace at the new depth's indentation, and an `FDT_END` tag ends the
walk normally whatever the current depth is; no error is reported in either
case. -/
theorem no_balance_check
    (b : Nat → Nat) (dbg : Bool) (ver offStr fuel p : Nat) (depth : Int) :
    (fdt32At b p = FDT_END_NODE →
      walkAux b dbg ver offStr (fuel + 1) p depth =
        ((if dbg then [Event.dbgTagAt p FDT_END_NODE] else []) ++
          Event.endNode (4 * (depth - 1)) ::
            (walkAux b dbg ver offStr fuel (p + 4) (depth - 1)).1,
         (walkAux b dbg ver offStr fuel (p + 4) (depth - 1)).2)) ∧
    (fdt32At b p = FDT_END →
      walkAux b dbg ver offStr (fuel + 1) p depth = ([], .ended)) := by
  constructor
  · intro htag
    simp [walkAux, htag, FDT_END_NODE, FDT_END, FDT_BEGIN_NODE]
  · intro htag
    simp [walkAux, htag, FDT_END]

/-- C3 counterexample: decoding `cb3` (structure block = `FDT_END_NODE` then
`FDT_END`, an unbalanced stream) completes normally: the walk ends in the
ordinary `ended` state with the closing brace emitted at the negative
indentation -4, and the process exit status is 0; no error of any kind is
raised. -/
theorem unbalanced_structure_counterexample :
    (dump_blob (bufFn cb3) false 10).2 = WalkExit.ended ∧
    Event.endNode (-4) ∈ (dump_blob (bufFn cb3) false 10).1 ∧
    (∀ i t, Event.unknownTag i t ∉ (dump_blob (bufFn cb3) false 10).1) ∧
    (blobMain (bufFn cb3) false 10).2 = 0 := by
  refine ⟨by decide, by decide, ?_, by decide⟩
  intro i t
  have : (dump_blob (bufFn cb3) false 10).1 =
      [Event.dtsV1, Event.hMagic 0xd00dfeed, Event.hTotalsize 64,
       Event.hOffDtStruct 56, Event.hOffDtStrings 64, Event.hOffMemRsvmap 40,
       Event.hVersion 17, Event.hLastCompVersion 16, Event.hBootCpuidPhys 0,
       Event.hSizeDtStrings 0, Event.hSizeDtStruct 8, Event.blankLine,
       Event.endNode (-4)] := by decide
  rw [this]
  simp

/-- C3 witness: the amended theorem applied to `cb3` at offset 56 (an
EndNode at depth 0): the walk continues at depth -1 and then ends normally. -/
theorem no_balance_check_witness :
    fdt32At (bufFn cb3) 56 = FDT_END_NODE ∧
    walkAux (bufFn cb3) false 17 64 (9 + 1) 56 0 =
      ([] ++ Event.endNode (4 * ((0 : Int) - 1)) ::
          (walkAux (bufFn cb3) false 17 64 9 (56 + 4) ((0 : Int) - 1)).1,
       (walkAux (bufFn cb3) false 17 64 9 (56 + 4) ((0 : Int) - 1)).2) := by
  have h := (no_balance_check (bufFn cb3) false 17 64 9 56 0).1 (by decide)
  exact ⟨by decide, by simpa using h⟩

/-- C4: if the reservation map at `off` consists of `n` pairs none of which
is zero/zero, followed by a pair whose address and size are both zero, the
reader emits exactly one `/memreserve/` directive per leading pair, in
order, and stops at the sentinel without emitting a directive for it. -/
theorem rsv_stops_at_first_zero_pair
    (b : Nat → Nat) (off n fuel : Nat)
    (hs : fdt64At b (off + 16 * n) = 0 ∧ fdt64At b (off + 16 * n + 8) = 0)
    (hnz : ∀ i, i < n →
      ¬(fdt64At b (off + 16 * i) = 0 ∧ fdt64At b (off + 16 * i + 8) = 0))
    (hfuel : n < fuel) :
    readRsvMap b off fuel =
      ((List.range n).map (fun i =>
          Event.memreserve (fdt64At b (off + 16 * i)) (fdt64At b (off + 16 * i + 8))),
       true) := by
  induction n generalizing off fuel with
  | zero =>
    obtain ⟨m, rfl⟩ : ∃ m, fuel = m + 1 := ⟨fuel - 1, by omega⟩
    simp only [readRsvMap]
    rw [if_pos (by simpa using hs)]
    simp
  | succ n ih =>
    obtain ⟨m, rfl⟩ : ∃ m, fuel = m + 1 := ⟨fuel - 1, by omega⟩
    simp only [readRsvMap]
    rw [if_neg (by simpa using hnz 0 (by omega))]
    have ea : off + 16 + 16 * n = off + 16 * (n + 1) := by ring
    have eb : off + 16 + 16 * n + 8 = off + 16 * (n + 1) + 8 := by ring
    have hrec := ih (off + 16) m ⟨by rw [ea]; exact hs.1, by rw [ea]; exact hs.2⟩
      (fun i hi => by
        have ec : off + 16 + 16 * i = off + 16 * (i + 1) := by ring
        rw [ec]
        exact hnz (i + 1) (by omega))
      (by omega)
    rw [hrec]
    have hlist : Event.memreserve (fdt64At b off) (fdt64At b (off + 8)) ::
        (List.range n).map (fun i =>
          Event.memreserve (fdt64At b (off + 16 + 16 * i))
            (fdt64At b (off + 16 + 16 * i + 8))) =
        (List.range (n + 1)).map (fun i =>
          Event.memreserve (fdt64At b (off + 16 * i)) (fdt64At b (off + 16 * i + 8))) := by
      have e0a : off + 16 * 0 = off := by ring
      rw [List.range_succ_eq_map, List.map_cons, List.map_map, e0a]
      refine congrArg₂ List.cons rfl ?_
      apply List.map_congr_left
      intro i _
      simp only [Function.comp_apply]
      have ec : off + 16 + 16 * i = off + 16 * (i + 1) := by ring
      rw [ec]
    exact congrArg (fun l => (l, true)) hlist

/-- C4 witness: on the map `cbRsv` (one entry (0x1000, 0x200), then the
sentinel) the reader emits exactly one directive and stops. -/
theorem rsv_stops_witness :
    readRsvMap (bufFn cbRsv) 0 2 = ([Event.memreserve 4096 512], true) := by
  have h := rsv_stops_at_first_zero_pair (bufFn cbRsv) 0 1 2 ⟨by decide, by decide⟩
      (fun i hi => by
        have hz : i = 0 := by omega
        subst hz; decide)
      (by omega)
  simpa using h

/-- C6 (amended): the commented header-field summary is emitted
unconditionally: whatever the debug flag is, the decode trace starts with
the `/dts-v1/;` marker followed by the eight always-present header summary
lines. -/
theorem header_summary_unconditional (b : Nat → Nat) (dbg : Bool) (fuel : Nat) :
    ∃ rest, (dump_blob b dbg fuel).1 =
      Event.dtsV1 :: Event.hMagic (parseHeader b).magic ::
      Event.hTotalsize (parseHeader b).totalsize ::
      Event.hOffDtStruct (parseHeader b).off_dt_struct ::
      Event.hOffDtStrings (parseHeader b).off_dt_strings ::
      Event.hOffMemRsvmap (parseHeader b).off_mem_rsvmap ::
      Event.hVersion (parseHeader b).version ::
      Event.hLastCompVersion (parseHeader b).last_comp_version :: rest := by
  by_cases hr : (readRsvMap b (parseHeader b).off_mem_rsvmap fuel).2
  · refine ⟨(if 2 ≤ (parseHeader b).version then
        [Event.hBootCpuidPhys (parseHeader b).boot_cpuid_phys] else []) ++
        ((if 3 ≤ (parseHeader b).version then
          [Event.hSizeDtStrings (parseHeader b).size_dt_strings] else []) ++
          ((if 17 ≤ (parseHeader b).version then
            [Event.hSizeDtStruct (parseHeader b).size_dt_struct] else []) ++
            Event.blankLine :: ((readRsvMap b (parseHeader b).off_mem_rsvmap fuel).1 ++
              (walkAux b dbg (parseHeader b).version (parseHeader b).off_dt_strings fuel
                (parseHeader b).off_dt_struct 0).1))), ?_⟩
    simp [dump_blob, headerEvents, hr]
  · refine ⟨(if 2 ≤ (parseHeader b).version then
        [Event.hBootCpuidPhys (parseHeader b).boot_cpuid_phys] else []) ++
        ((if 3 ≤ (parseHeader b).version then
          [Event.hSizeDtStrings (parseHeader b).size_dt_strings] else []) ++
          ((if 17 ≤ (parseHeader b).version then
            [Event.hSizeDtStruct (parseHeader b).size_dt_struct] else []) ++
            Event.blankLine :: (readRsvMap b (parseHeader b).off_mem_rsvmap fuel).1)), ?_⟩
    simp [dump_blob, headerEvents, hr]

/-- C6 counterexample: decoding `cb1` with the debug flag off still emits
the commented header summary lines (here the magic and version lines),
contradicting the claim that they appear only in diagnostic mode. -/
theorem header_summary_counterexample :
    Event.hMagic 0xd00dfeed ∈ (dump_blob (bufFn cb1) false 10).1 ∧
    Event.hVersion 17 ∈ (dump_blob (bufFn cb1) false 10).1 := by
  exact ⟨by decide, by decide⟩

/-- C6 amended-theorem witness: the decode of `cb1` with debug off starts
with the `/dts-v1/;` marker and the eight header summary lines with their
concrete field values. -/
theorem header_summary_witness :
    ∃ rest, (dump_blob (bufFn cb1) false 10).1 =
      Event.dtsV1 :: Event.hMagic 0xd00dfeed :: Event.hTotalsize 60 ::
      Event.hOffDtStruct 56 :: Event.hOffDtStrings 60 :: Event.hOffMemRsvmap 40 ::
      Event.hVersion 17 :: Event.hLastCompVersion 16 :: rest := by
  obtain ⟨rest, h⟩ := header_summary_unconditional (bufFn cb1) false 10
  have hm : parseHeader (bufFn cb1) =
      ⟨0xd00dfeed, 60, 56, 60, 40, 17, 16, 0, 0, 4⟩ := by decide
  exact ⟨rest, by rw [h, hm]⟩

/-- no event produced by the live walker is the `/dts-v1/;` marker. -/
theorem liveToEvent_ne_dtsV1 (x : LiveEv) : liveToEvent x ≠ Event.dtsV1 := by
  cases x <;> simp [liveToEvent]

/-- C8 (amended): a binary-blob decode always begins with the `/dts-v1/;`
marker, but a live-tree dump begins with the comment line naming the tree
path and never emits the `/dts-v1/;` marker at all. -/
theorem output_marker_by_input_kind :
    (∀ (b : Nat → Nat) (dbg : Bool) (fuel : Nat),
        ((dump_blob b dbg fuel).1).head? = some Event.dtsV1) ∧
    (∀ (path : List Char) (t : LiveNode),
        (dump_live path t).head? = some (Event.liveComment (fixTrailing path)) ∧
        Event.dtsV1 ∉ dump_live path t) := by
  constructor
  · intro b dbg fuel
    by_cases hr : (readRsvMap b (parseHeader b).off_mem_rsvmap fuel).2 <;>
      simp [dump_blob, headerEvents, hr]
  · intro path t
    refine ⟨rfl, ?_⟩
    intro hmem
    simp [dump_live] at hmem
    rcases hmem with ⟨x, _, hx⟩
    exact liveToEvent_ne_dtsV1 x hx

/-- C8 amended-theorem witness: the blob `cb1` starts with the `/dts-v1/;`
marker; the live dump of an empty directory at path "r" starts with the
live-tree comment line and never emits the marker. -/
theorem output_marker_witness :
    ((dump_blob (bufFn cb1) false 10).1).head? = some Event.dtsV1 ∧
    (dump_live ['r'] (LiveNode.mk [] [])).head? =
      some (Event.liveComment (fixTrailing ['r'])) ∧
    Event.dtsV1 ∉ dump_live ['r'] (LiveNode.mk [] []) := by
  refine ⟨output_marker_by_input_kind.1 (bufFn cb1) false 10, ?_, ?_⟩
  · exact (output_marker_by_input_kind.2 ['r'] (LiveNode.mk [] [])).1
  · exact (output_marker_by_input_kind.2 ['r'] (LiveNode.mk [] [])).2

/-- C8 counterexample: dumping the live tree at path "r" (an empty
directory) starts with the live-tree comment line, not with the `/dts-v1/;`
marker the claim requires for every input. -/
theorem live_marker_counterexample :
    (dump_live ['r'] (LiveNode.mk [] [])).head? = some (Event.liveComment ['r']) ∧
    (dump_live ['r'] (LiveNode.mk [] [])).head? ≠ some Event.dtsV1 := by
  constructor
  · simp [dump_live, fixTrailing]
  · simp [dump_live, fixTrailing]

/-- C9: for every regular file of a live-tree node, the property event
passes at most 4096 bytes of the file content to the value renderer
(`chunk = min(st_size, 4096)` bytes), and carries the truncation marker
exactly when the file's size exceeds 4096 bytes. -/
theorem live_file_truncation
    (files : List LiveFile) (subs : List (String × LiveNode)) (depth : Int)
    (f : LiveFile) (hf : f ∈ files) :
    LiveEv.prop (4 * depth) f.name (decide (liveChunk f.size < f.size))
        (f.content.take (liveChunk f.size)) ∈ dumpLiveNode (LiveNode.mk files subs) depth ∧
    (f.content.take (liveChunk f.size)).length ≤ 4096 ∧
    (liveChunk f.size < f.size ↔ 4096 < f.size) := by
  refine ⟨?_, ?_, ?_⟩
  · simp only [dumpLiveNode]
    apply List.mem_append_left
    exact List.mem_map.mpr ⟨f, hf, rfl⟩
  · have h1 : (f.content.take (liveChunk f.size)).length ≤ liveChunk f.size :=
      List.length_take_le _ _
    have h2 : liveChunk f.size ≤ 4096 := by unfold liveChunk; split <;> omega
    omega
  · unfold liveChunk; split <;> omega

/-- C9 witness: a 5000-byte file is read as its first 4096 bytes with the
truncation marker set; a 5-byte file is passed whole with no marker. -/
theorem live_file_truncation_witness :
    LiveEv.prop 4 "status" (decide (liveChunk 5 < 5))
        ([111, 107, 97, 121, 0].take (liveChunk 5)) ∈
      dumpLiveNode (LiveNode.mk [⟨"status", 5, [111, 107, 97, 121, 0]⟩] []) 1 ∧
    ([111, 107, 97, 121, 0].take (liveChunk 5)).length ≤ 4096 ∧
    (liveChunk 5 < 5 ↔ 4096 < 5) := by
  have h := live_file_truncation [⟨"status", 5, [111, 107, 97, 121, 0]⟩] [] 1
      ⟨"status", 5, [111, 107, 97, 121, 0]⟩ (by simp)
  simpa using h

/-- a successful `memchr` probe returns the first position carrying the
searched byte, within the searched range. -/
theorem memchrIdx_eq_some (buf : List Nat) (c : Nat) :
    ∀ n p i, memchrIdx buf c p n = some i →
      p ≤ i ∧ i < p + n ∧ buf.getD i 0 % 256 = c ∧
        ∀ j, p ≤ j → j < i → buf.getD j 0 % 256 ≠ c := by
  intro n
  induction n with
  | zero => intro p i h; simp [memchrIdx] at h
  | succ n ih =>
    intro p i h
    simp only [memchrIdx] at h
    by_cases hb : buf.getD p 0 % 256 = c
    · rw [if_pos hb] at h
      cases h
      exact ⟨le_refl _, by omega, hb, fun j hj1 hj2 => by omega⟩
    · rw [if_neg hb] at h
      obtain ⟨h1, h2, h3, h4⟩ := ih (p + 1) i h
      refine ⟨by omega, by omega, h3, ?_⟩
      intro j hj1 hj2
      rcases Nat.eq_or_lt_of_le hj1 with rfl | hlt
      · exact hb
      · exact h4 j hlt hj2

/-- a failed `memchr` probe means no byte of the searched range carries the
searched value. -/
theorem memchrIdx_eq_none (buf : List Nat) (c : Nat) :
    ∀ n p, memchrIdx buf c p n = none →
      ∀ j, p ≤ j → j < p + n → buf.getD j 0 % 256 ≠ c := by
  intro n
  induction n with
  | zero => intro p _ j h1 h2; omega
  | succ n ih =>
    intro p h j h1 h2
    simp only [memchrIdx] at h
    by_cases hb : buf.getD p 0 % 256 = c
    · rw [if_pos hb] at h; exact absurd h (by simp)
    · rw [if_neg hb] at h
      rcases Nat.eq_or_lt_of_le h1 with rfl | hlt
      · exact hb
      · exact ih (p + 1) h j hlt (by omega)

/-- converse: `memchr` fails when no byte of the searched range carries the
searched value. -/
theorem memchrIdx_none_of (buf : List Nat) (c : Nat) :
    ∀ n p, (∀ j, p ≤ j → j < p + n → buf.getD j 0 % 256 ≠ c) →
      memchrIdx buf c p n = none := by
  intro n
  induction n with
  | zero => intro p _; rfl
  | succ n ih =>
    intro p h
    simp only [memchrIdx]
    rw [if_neg (h p (le_refl p) (by omega))]
    exact ih (p + 1) (fun j h1 h2 => h j (by omega) (by omega))

/-- a position whose four bytes equal the magic constant starts with the
magic's first byte 0xd0. -/
theorem magic_first_byte (buf : List Nat) (p : Nat) (h : fdtMagicAt buf p = true) :
    buf.getD p 0 % 256 = 208 := by
  have h' : fdt32At (bufFn buf) p = FDT_MAGIC := of_decide_eq_true h
  unfold fdt32At byteAt bufFn FDT_MAGIC at h'
  have b1 : buf.getD (p + 1) 0 % 256 < 256 := Nat.mod_lt _ (by omega)
  have b2 : buf.getD (p + 2) 0 % 256 < 256 := Nat.mod_lt _ (by omega)
  have b3 : buf.getD (p + 3) 0 % 256 < 256 := Nat.mod_lt _ (by omega)
  omega

/-- soundness and completeness of the scan loop with sufficient fuel: it
never runs out of fuel, it returns `found q` exactly for the least
acceptable candidate `q` at or after the start position, and it returns
`notFound` exactly when no acceptable candidate remains. -/
theorem scanLoop_sound (buf : List Nat) :
    ∀ fuel p, buf.length ≤ fuel + p →
      ((scanLoop buf (fuel + 1) p).2 ≠ .fuelOut) ∧
      (∀ q, (scanLoop buf (fuel + 1) p).2 = .found q →
        p ≤ q ∧ acceptAt buf q ∧ ∀ r, p ≤ r → r < q → ¬ acceptAt buf r) ∧
      (∀ q, p ≤ q → acceptAt buf q → (∀ r, p ≤ r → r < q → ¬ acceptAt buf r) →
        (scanLoop buf (fuel + 1) p).2 = .found q) ∧
      ((scanLoop buf (fuel + 1) p).2 = .notFound → ∀ r, p ≤ r → ¬ acceptAt buf r) := by
  intro fuel
  induction fuel with
  | zero =>
    intro p hp
    have hc : buf.length - p - 4 = 0 := by omega
    have hres : scanLoop buf (0 + 1) p = ([], .notFound) := by
      simp only [Nat.zero_add, scanLoop, hc, memchrIdx]
    rw [hres]
    refine ⟨by simp, by simp, ?_, ?_⟩
    · intro q hq hacc _
      exact absurd hacc.1 (by omega)
    · intro _ r hr hacc
      exact absurd hacc.1 (by omega)
  | succ fuel ih =>
    intro p hp
    rcases hmc : memchrIdx buf 208 p (buf.length - p - 4) with _ | i
    · have hres : scanLoop buf (fuel + 1 + 1) p = ([], .notFound) := by
        simp only [scanLoop, hmc]
      have hnone := memchrIdx_eq_none buf 208 _ p hmc
      have hnoacc : ∀ r, p ≤ r → ¬ acceptAt buf r := by
        intro r hr hacc
        obtain ⟨hb, hm, _⟩ := hacc
        have hbyte := magic_first_byte buf r hm
        exact hnone r hr (by omega) hbyte
      rw [hres]
      exact ⟨by simp, by simp, fun q hq hacc _ => absurd hacc (hnoacc q hq),
        fun _ => hnoacc⟩
    · obtain ⟨hpi, hilt, hibyte, himin⟩ := memchrIdx_eq_some buf 208 _ p i hmc
      have hi5 : i + 5 ≤ buf.length := by omega
      by_cases hacc : (fdtMagicAt buf i && headerPlausible buf i) = true
      · have hres : scanLoop buf (fuel + 1 + 1) p = ([i], .found i) := by
          simp only [scanLoop, hmc, hacc, if_true]
        have hacci : acceptAt buf i := by
          rcases Bool.and_eq_true_iff.mp hacc with ⟨ha, hb⟩
          exact ⟨hi5, ha, hb⟩
        have hminp : ∀ r, p ≤ r → r < i → ¬ acceptAt buf r := fun r h1 h2 hac =>
          himin r h1 h2 (magic_first_byte buf r hac.2.1)
        rw [hres]
        refine ⟨by simp, ?_, ?_, by simp⟩
        · intro q hq
          simp only [ScanRes.found.injEq] at hq
          subst hq
          exact ⟨hpi, hacci, hminp⟩
        · intro q hq hval hmin
          have h1 : ¬ q < i := fun hlt => (hminp q hq hlt) hval
          have h2 : ¬ i < q := fun hlt => (hmin i hpi hlt) hacci
          have h3 : i = q := by omega
          simp [h3]
      · have hres : scanLoop buf (fuel + 1 + 1) p =
            (i :: (scanLoop buf (fuel + 1) (i + 1)).1,
             (scanLoop buf (fuel + 1) (i + 1)).2) := by
          simp only [scanLoop, hmc, hacc, if_false, Bool.false_eq_true]
        have hni : ¬ acceptAt buf i := by
          intro hac
          exact hacc (by rw [hac.2.1, hac.2.2]; rfl)
        have hnotlt : ∀ r, p ≤ r → r < i + 1 → ¬ acceptAt buf r := by
          intro r h1 h2 hac
          rcases Nat.lt_succ_iff_lt_or_eq.mp h2 with h3 | rfl
          · exact himin r h1 h3 (magic_first_byte buf r hac.2.1)
          · exact hni hac
        have IH := ih (i + 1) (by omega)
        rw [hres]
        refine ⟨IH.1, ?_, ?_, ?_⟩
        · intro q hq
          obtain ⟨hq1, hq2, hq3⟩ := IH.2.1 q hq
          refine ⟨by omega, hq2, ?_⟩
          intro r hr1 hr2
          by_cases h : i + 1 ≤ r
          · exact hq3 r h hr2
          · exact hnotlt r hr1 (by omega)
        · intro q hq hval hmin
          have hqge : i + 1 ≤ q := by
            by_contra hlt
            exact hnotlt q hq (by omega) hval
          exact IH.2.2.1 q hqge hval (fun r h1 h2 => hmin r (by omega) h2)
        · intro hq r hr
          rcases Nat.lt_or_ge r (i + 1) with h | h
          · exact hnotlt r hr h
          · exact IH.2.2.2 hq r h

/-- every position at which the scan loop evaluated the 4-byte magic
comparison lies at least 5 bytes before the end of the buffer. -/
theorem scanLoop_examined (buf : List Nat) :
    ∀ fuel p i, i ∈ (scanLoop buf fuel p).1 → i + 5 ≤ buf.length := by
  intro fuel
  induction fuel with
  | zero => intro p i h; simp [scanLoop] at h
  | succ fuel ih =>
    intro p i h
    rcases hmc : memchrIdx buf 208 p (buf.length - p - 4) with _ | j
    · simp only [scanLoop, hmc] at h
      simp at h
    · simp only [scanLoop, hmc] at h
      obtain ⟨hpj, hjlt, _, _⟩ := memchrIdx_eq_some buf 208 _ p j hmc
      have hj5 : j + 5 ≤ buf.length := by omega
      by_cases hb : (fdtMagicAt buf j && headerPlausible buf j) = true
      · rw [if_pos hb] at h
        simp at h
        omega
      · rw [if_neg hb] at h
        simp at h
        rcases h with rfl | h
        · omega
        · exact ih (j + 1) i h

/-- C5: with the whole buffer as fuel, the embedded-blob scan accepts a
candidate offset `q` if and only if `q` is acceptable (lies in the probed
region, carries the 4-byte magic, and passes the plausibility filter:
version ≤ 17, last-compatible version < 17, totalsize, structure offset and
strings offset each smaller than the remaining bytes) and every earlier
offset is not acceptable; and the scan dies with the locate error exactly
when no offset is acceptable. -/
theorem scan_accepts_first_candidate (buf : List Nat) (_h4 : 4 ≤ buf.length) :
    (∀ q, scanMain buf = .found q ↔
      acceptAt buf q ∧ ∀ r, r < q → ¬ acceptAt buf r) ∧
    (scanMain buf = .notFound ↔ ∀ r, ¬ acceptAt buf r) := by
  have H := scanLoop_sound buf buf.length 0 (by omega)
  simp only [scanMain]
  constructor
  · intro q
    constructor
    · intro h
      obtain ⟨_, hacc, hmin⟩ := H.2.1 q h
      exact ⟨hacc, fun r hr => hmin r (Nat.zero_le r) hr⟩
    · rintro ⟨hacc, hmin⟩
      exact H.2.2.1 q (Nat.zero_le q) hacc (fun r _ hr => hmin r hr)
  · constructor
    · intro h r
      exact H.2.2.2 h r (Nat.zero_le r)
    · intro h
      rcases hs : (scanLoop buf (buf.length + 1) 0).2 with q | _ | _
      · exact absurd (H.2.1 q hs).2.1 (h q)
      · rfl
      · exact absurd hs H.1

/-- C5 witness: on `cb5` (a plausible version-17 blob followed by one spare
byte) the scan accepts offset 0; the hypothesis `4 ≤ length` holds. -/
theorem scan_accepts_witness :
    4 ≤ cb5.length ∧ scanMain cb5 = ScanRes.found 0 := by
  refine ⟨by decide, ?_⟩
  exact ((scan_accepts_first_candidate cb5 (by decide)).1 0).mpr
    ⟨by decide, fun r hr => absurd hr (Nat.not_lt_zero r)⟩

/-- C10: (a) every offset at which the scan evaluated the 4-byte magic
comparison lies more than 4 bytes before the end of the buffer, so the
comparison never reads past the buffer end; (b) if the magic's first byte
0xd0 occurs only within the final 4 bytes, the probe never examines any
candidate and the scan fails with the no-embedded-blob error. -/
theorem scan_probe_bounds (buf : List Nat) (h4 : 4 ≤ buf.length) :
    (∀ i ∈ (scanLoop buf (buf.length + 1) 0).1, i + 4 < buf.length) ∧
    ((∀ r, r + 5 ≤ buf.length → buf.getD r 0 % 256 ≠ 208) →
      scanMain buf = .notFound) := by
  constructor
  · intro i hi
    have := scanLoop_examined buf (buf.length + 1) 0 i hi
    omega
  · intro h
    have hnone : memchrIdx buf 208 0 (buf.length - 0 - 4) = none := by
      apply memchrIdx_none_of
      intro j h1 h2
      exact h j (by omega)
    simp only [scanMain, scanLoop, hnone]

/-- C10 witness: on the 5-byte buffer `cb10`, whose 0xd0 bytes sit only in
the final 4 bytes, the scan fails with the no-embedded-blob error. -/
theorem scan_probe_bounds_witness :
    4 ≤ cb10.length ∧ scanMain cb10 = ScanRes.notFound := by
  refine ⟨by decide, ?_⟩
  refine (scan_probe_bounds cb10 (by decide)).2 ?_
  intro r hr
  have hlen : cb10.length = 5 := by decide
  rw [hlen] at hr
  have hz : r = 0 := by omega
  subst hz
  decide

end Fdtdump
